import Mathlib

/-!
Verification of the mechanics-roster optimization core
(`src/mechanics_roster/{data_loader,optimizer,config}.py`, duplicated in the
top-level `app.py`).  The Python code is shallowly embedded: pandas data
frames become structures holding a column list and typed rows, Python dicts
become association lists with insert/lookup, the OR-Tools model becomes a
record of variables, linear constraints and objective terms, and floats
become rationals.
-/

namespace Roster

/-- Character-list replacement of every non-overlapping occurrence of `pat`
by `rep`, scanning left to right, as Python's `str.replace`.  The extra
`fuel` argument (always called with `fuel ≥` the length of the scanned list)
keeps the recursion structural; an empty `pat` performs no replacement
(the source only calls it with the literal `"_inspec"`). -/
def replaceChars (pat rep : List Char) : Nat → List Char → List Char
  | _, [] => []
  | 0, l => l
  | fuel + 1, c :: rest =>
    if pat ≠ [] ∧ List.isPrefixOf pat (c :: rest) then
      rep ++ replaceChars pat rep fuel ((c :: rest).drop pat.length)
    else
      c :: replaceChars pat rep fuel rest

/-- Embedding of Python `s.replace(pat, rep)`. -/
def strReplace (s pat rep : String) : String :=
  ⟨replaceChars pat.data rep.data s.data.length s.data⟩

/-- Embedding of Python `s.endswith(suffix)`. -/
def strEndsWith (s suffix : String) : Bool :=
  List.isSuffixOf suffix.data s.data

/-- Decision variables of the model: `x` variables `x[m, b, g, s]` and
avoidance variables `y[m1, m2, b, g, s]` (`optimizer.py` lines 62-68 and
179-184). -/
inductive Var where
  | x (m b g s : Int)
  | y (m1 m2 b g s : Int)
deriving DecidableEq

/-- A linear constraint as produced by `solver.Constraint(lb, ub, name)`
followed by `SetCoefficient` calls; `none` bounds stand for
`-solver.infinity()` / `solver.infinity()`. -/
structure LinCon where
  name : String
  lb : Option ℚ
  ub : Option ℚ
  coeffs : List (Var × ℚ)
deriving DecidableEq

/-- Value of the left-hand side of a constraint under an assignment of the
decision variables. -/
def LinCon.lhs (c : LinCon) (σ : Var → ℚ) : ℚ :=
  (c.coeffs.map (fun p => p.2 * σ p.1)).sum

/-- An assignment satisfies a constraint when the left-hand side lies within
the declared bounds. -/
def satisfies (σ : Var → ℚ) (c : LinCon) : Prop :=
  (∀ q ∈ c.lb, q ≤ c.lhs σ) ∧ (∀ q ∈ c.ub, c.lhs σ ≤ q)

/-- A row of the mechanic-skills frame: `mechanic_id` plus the integer
reading `int(row[col])` of each skill cell. -/
structure SkillRow where
  mechanic_id : Int
  cell : String → Int

/-- The mechanic-skills frame (`mechanic_skills_df`). -/
structure SkillsDF where
  columns : List String
  rows : List SkillRow

/-- A row of the base-schedule frame; `cell` returns `none` for a NaN cell
(pandas `NaN` fails both `pd.notna` and `> 0` comparisons). -/
structure ScheduleRow where
  base_id : Int
  period : Int
  shift : Int
  cell : String → Option ℚ

/-- The base-schedule frame (`base_schedule_df`). -/
structure ScheduleDF where
  columns : List String
  rows : List ScheduleRow

/-- A row of the cost-matrix frame: `id` plus the float reading of each
base-letter column. -/
structure CostRow where
  id : Int
  cell : String → ℚ

/-- The cost-matrix frame (`cost_matrix_df`). -/
structure CostDF where
  columns : List String
  rows : List CostRow

/-- Python `d[k] = v` on a dict modelled as an association list: an existing
key is updated in place, a new key is appended. -/
def dinsert {κ ν : Type} [DecidableEq κ] (d : List (κ × ν)) (k : κ) (v : ν) :
    List (κ × ν) :=
  if d.any (fun e => e.1 == k) then
    d.map (fun e => if e.1 == k then (k, v) else e)
  else
    d ++ [(k, v)]

/-- Python `d.get(k)` on a dict modelled as an association list. -/
def dlookup {κ ν : Type} [DecidableEq κ] (d : List (κ × ν)) (k : κ) : Option ν :=
  (d.find? (fun e => e.1 == k)).map Prod.snd

/-- Aircraft types enumerated in `create_model`. -/
def aircraft_types : List String := ["aw139", "h175", "sk92"]

/-- Skill-discipline suffixes enumerated in `create_model`. -/
def skill_types : List String := ["_af", "_r", "_av"]

/-- The nine regular-skill column names `f"{aircraft}{skill}"`. -/
def skillColNames : List String :=
  aircraft_types.flatMap (fun a => skill_types.map (fun sk => a ++ sk))

/-- The nine inspector-skill column names `f"{aircraft}{skill}_inspec"`. -/
def inspecColNames : List String :=
  skillColNames.map (fun n => n ++ "_inspec")

/-- The last row of the skills frame carrying a given `mechanic_id`: the
dict built by `create_model` reinitializes `mechanic_skills[m] = {}` per row,
so on duplicate ids the last row wins. -/
def lastRowFor (df : SkillsDF) (m : Int) : Option SkillRow :=
  (df.rows.filter (fun r => r.mechanic_id == m)).getLast?

/-- Value of `mechanic_skills[m].get(col, 0)`: the dict holds a key only for
the nine regular-skill names that are present in the frame's columns. -/
def regSkill (df : SkillsDF) (m : Int) (col : String) : Int :=
  match lastRowFor df m with
  | none => 0
  | some r => if col ∈ skillColNames ∧ col ∈ df.columns then r.cell col else 0

/-- Value of `mechanic_inspector_skills[m].get(col, 0)`. -/
def inspSkill (df : SkillsDF) (m : Int) (col : String) : Int :=
  match lastRowFor df m with
  | none => 0
  | some r => if col ∈ inspecColNames ∧ col ∈ df.columns then r.cell col else 0

/-- Truth value of the pandas comparison `cell > 0` (false on NaN, which also
makes `pd.notna(cell) and cell > 0` equivalent to it). -/
def gtZero : Option ℚ → Bool
  | none => false
  | some v => decide (0 < v)

/-- The `(b, g, s)` triples visited by the nested
`for b in bases: for g in periods: for s in shifts:` loops. -/
def slotTriples (bases periods shifts : List Int) : List (Int × Int × Int) :=
  bases.flatMap (fun b => periods.flatMap (fun g => shifts.map (fun s => (b, g, s))))

/-- Constraint 1 for one mechanic: `solver.Constraint(0, 1, ...)` over all of
the mechanic's `x` variables. -/
def singleAssignCon (bases periods shifts : List Int) (m : Int) : LinCon :=
  { name := "mechanic_" ++ toString m ++ "_single_assignment"
    lb := some 0
    ub := some 1
    coeffs := (slotTriples bases periods shifts).map
      (fun t => (Var.x m t.1 t.2.1 t.2.2, 1)) }

/-- Constraint family 1 of `create_model` (single assignment). -/
def singleAssignmentCons (mechanics bases periods shifts : List Int) : List LinCon :=
  mechanics.map (singleAssignCon bases periods shifts)

/-- One skill-coverage constraint: `solver.Constraint(1, infinity, ...)` with
coefficient 1 on every mechanic holding the regular skill. -/
def skillCoverCon (skills : SkillsDF) (mechanics : List Int) (row : ScheduleRow)
    (skill_name : String) : LinCon :=
  { name := "skill_" ++ skill_name ++ "_base" ++ toString row.base_id ++
      "_period" ++ toString row.period ++ "_shift" ++ toString row.shift
    lb := some 1
    ub := none
    coeffs := (mechanics.filter (fun m => regSkill skills m skill_name == 1)).map
      (fun m => (Var.x m row.base_id row.period row.shift, 1)) }

/-- Constraint family 2 of `create_model` (skill coverage): a constraint per
schedule row, aircraft column present with positive count, and discipline. -/
def skillCoverageCons (skills : SkillsDF) (sched : ScheduleDF)
    (mechanics : List Int) : List LinCon :=
  sched.rows.flatMap (fun row =>
    aircraft_types.flatMap (fun aircraft =>
      if aircraft ∈ sched.columns ∧ gtZero (row.cell aircraft) then
        skill_types.map (fun sk => skillCoverCon skills mechanics row (aircraft ++ sk))
      else []))

/-- The schedule columns ending in `"_inspec"` (`inspector_req_columns`). -/
def inspectorReqColumns (sched : ScheduleDF) : List String :=
  sched.columns.filter (fun c => strEndsWith c "_inspec")

/-- One inspector-coverage constraint. -/
def inspectorCoverCon (skills : SkillsDF) (mechanics : List Int)
    (row : ScheduleRow) (inspector_col : String) : LinCon :=
  { name := "inspector_" ++ inspector_col ++ "_base" ++ toString row.base_id ++
      "_period" ++ toString row.period ++ "_shift" ++ toString row.shift
    lb := some 1
    ub := none
    coeffs := (mechanics.filter (fun m => inspSkill skills m inspector_col == 1)).map
      (fun m => (Var.x m row.base_id row.period row.shift, 1)) }

/-- Constraint family 3 of `create_model` (inspector coverage). -/
def inspectorCoverageCons (skills : SkillsDF) (sched : ScheduleDF)
    (mechanics : List Int) : List LinCon :=
  sched.rows.flatMap (fun row =>
    (inspectorReqColumns sched).flatMap (fun col =>
      if col ∈ sched.columns ∧ gtZero (row.cell col) then
        [inspectorCoverCon skills mechanics row col]
      else []))

/-- The regular-skill counterpart `inspector_col.replace("_inspec", "")`. -/
def regularCounterpart (col : String) : String :=
  strReplace col "_inspec" ""

/-- The list `other_mechanics_with_skill` computed for one inspector. -/
def othersWithSkill (skills : SkillsDF) (mechanics : List Int)
    (m_inspector : Int) (regular_skill_name : String) : List Int :=
  mechanics.filter
    (fun m => m != m_inspector && regSkill skills m regular_skill_name == 1)

/-- One no-self-inspection constraint:
`solver.Constraint(-infinity, 0, ...)` with coefficient 1 on the inspector
and -1 on every other mechanic holding the regular counterpart. -/
def noSelfInspectCon (skills : SkillsDF) (mechanics : List Int)
    (row : ScheduleRow) (inspector_col : String) (m_inspector : Int) : LinCon :=
  { name := "no_self_inspect_" ++ inspector_col ++ "_base" ++ toString row.base_id ++
      "_period" ++ toString row.period ++ "_shift" ++ toString row.shift ++
      "_inspector" ++ toString m_inspector
    lb := none
    ub := some 0
    coeffs := (Var.x m_inspector row.base_id row.period row.shift, 1) ::
      (othersWithSkill skills mechanics m_inspector
          (regularCounterpart inspector_col)).map
        (fun mo => (Var.x mo row.base_id row.period row.shift, -1)) }

/-- Constraint family 4 of `create_model` (no self-inspection); a constraint
is emitted only when `other_mechanics_with_skill` is nonempty. -/
def noSelfInspectionCons (skills : SkillsDF) (sched : ScheduleDF)
    (mechanics : List Int) : List LinCon :=
  sched.rows.flatMap (fun row =>
    (inspectorReqColumns sched).flatMap (fun col =>
      if col ∈ sched.columns ∧ gtZero (row.cell col) then
        mechanics.flatMap (fun mi =>
          if inspSkill skills mi col == 1 then
            if othersWithSkill skills mechanics mi (regularCounterpart col) ≠ [] then
              [noSelfInspectCon skills mechanics row col mi]
            else []
          else [])
      else []))

/-- The set `unique_pairs` of dict keys with `m1 < m2` (Python set semantics
modelled by deduplication). -/
def uniquePairs (avoidance_dict : List ((Int × Int) × ℚ)) : List (Int × Int) :=
  ((avoidance_dict.map Prod.fst).filter (fun p => decide (p.1 < p.2))).dedup

/-- The avoidance variables `y_avoid_...` created per unique pair and slot. -/
def avoidanceYVars (avoidance_dict : List ((Int × Int) × ℚ))
    (bases periods shifts : List Int) : List Var :=
  (uniquePairs avoidance_dict).flatMap (fun p =>
    (slotTriples bases periods shifts).map (fun t => Var.y p.1 p.2 t.1 t.2.1 t.2.2))

/-- First linearization constraint `c1`: `-infinity ≤ y - x[m1] ≤ 0`. -/
def avoidCon1 (m1 m2 b g s : Int) : LinCon :=
  { name := "avoid_y_le_x1_m" ++ toString m1 ++ "_m" ++ toString m2 ++
      "_b" ++ toString b ++ "_g" ++ toString g ++ "_s" ++ toString s
    lb := none
    ub := some 0
    coeffs := [(Var.y m1 m2 b g s, 1), (Var.x m1 b g s, -1)] }

/-- Second linearization constraint `c2`: `-infinity ≤ y - x[m2] ≤ 0`. -/
def avoidCon2 (m1 m2 b g s : Int) : LinCon :=
  { name := "avoid_y_le_x2_m" ++ toString m1 ++ "_m" ++ toString m2 ++
      "_b" ++ toString b ++ "_g" ++ toString g ++ "_s" ++ toString s
    lb := none
    ub := some 0
    coeffs := [(Var.y m1 m2 b g s, 1), (Var.x m2 b g s, -1)] }

/-- Third linearization constraint `c3` exactly as the source sets it up:
`solver.Constraint(-1, infinity, "avoid_y_ge_sum...")` with coefficients
`y: -1`, `x[m1]: +1`, `x[m2]: +1`, that is `-1 ≤ -y + x[m1] + x[m2]`. -/
def avoidCon3 (m1 m2 b g s : Int) : LinCon :=
  { name := "avoid_y_ge_sum_m" ++ toString m1 ++ "_m" ++ toString m2 ++
      "_b" ++ toString b ++ "_g" ++ toString g ++ "_s" ++ toString s
    lb := some (-1)
    ub := none
    coeffs := [(Var.y m1 m2 b g s, -1), (Var.x m1 b g s, 1), (Var.x m2 b g s, 1)] }

/-- Constraint family 5 of `create_model` (avoidance linearization). -/
def avoidanceLinCons (avoidance_dict : List ((Int × Int) × ℚ))
    (bases periods shifts : List Int) : List LinCon :=
  (uniquePairs avoidance_dict).flatMap (fun p =>
    (slotTriples bases periods shifts).flatMap (fun t =>
      [avoidCon1 p.1 p.2 t.1 t.2.1 t.2.2,
       avoidCon2 p.1 p.2 t.1 t.2.1 t.2.2,
       avoidCon3 p.1 p.2 t.1 t.2.1 t.2.2]))

/-- Value of `cost_dict.get((m, b), 0)`. -/
def costGet (cost_dict : List ((Int × Int) × ℚ)) (k : Int × Int) : ℚ :=
  (dlookup cost_dict k).getD 0

/-- Movement-cost objective terms: `objective.SetCoefficient(x[(m,b,g,s)], cost)`
with `cost = cost_dict.get((m, b), 0)` computed before the `g, s` loops. -/
def movementTerms (mechanics bases periods shifts : List Int)
    (cost_dict : List ((Int × Int) × ℚ)) : List (Var × ℚ) :=
  mechanics.flatMap (fun m => bases.flatMap (fun b =>
    let cost := costGet cost_dict (m, b)
    periods.flatMap (fun g => shifts.map (fun s => (Var.x m b g s, cost)))))

/-- Avoidance-penalty objective terms, one per `y` variable. -/
def avoidanceTerms (avoidance_dict : List ((Int × Int) × ℚ))
    (bases periods shifts : List Int) : List (Var × ℚ) :=
  (uniquePairs avoidance_dict).flatMap (fun p =>
    let penalty := (dlookup avoidance_dict p).getD 0
    (slotTriples bases periods shifts).map
      (fun t => (Var.y p.1 p.2 t.1 t.2.1 t.2.2, penalty)))

/-- The `data` dictionary handed to `RosterOptimizer.create_model`. -/
structure InputData where
  mechanic_skills_df : SkillsDF
  base_schedule_df : ScheduleDF
  mechanics : List Int
  bases : List Int
  periods : List Int
  shifts : List Int
  cost_dict : List ((Int × Int) × ℚ)
  avoidance_dict : List ((Int × Int) × ℚ)

/-- The assembled MIP model. -/
structure MipModel where
  xVars : List Var
  yVars : List Var
  constraints : List LinCon
  objectiveTerms : List (Var × ℚ)

/-- Embedding of `RosterOptimizer.create_model`: variables, the five
constraint families in source order, and the objective terms. -/
def create_model (d : InputData) : MipModel :=
  { xVars := d.mechanics.flatMap (fun m =>
      (slotTriples d.bases d.periods d.shifts).map (fun t => Var.x m t.1 t.2.1 t.2.2))
    yVars := avoidanceYVars d.avoidance_dict d.bases d.periods d.shifts
    constraints :=
      singleAssignmentCons d.mechanics d.bases d.periods d.shifts ++
      skillCoverageCons d.mechanic_skills_df d.base_schedule_df d.mechanics ++
      inspectorCoverageCons d.mechanic_skills_df d.base_schedule_df d.mechanics ++
      noSelfInspectionCons d.mechanic_skills_df d.base_schedule_df d.mechanics ++
      avoidanceLinCons d.avoidance_dict d.bases d.periods d.shifts
    objectiveTerms :=
      movementTerms d.mechanics d.bases d.periods d.shifts d.cost_dict ++
      avoidanceTerms d.avoidance_dict d.bases d.periods d.shifts }

/-- One extracted assignment record. -/
structure Assignment where
  mechanic_id : Int
  base_id : Int
  group : Int
  shift : Int
  shift_name : String
  cost : ℚ
deriving DecidableEq

/-- The record appended by `extract_solution` for a chosen variable. -/
def mkAssignment (cost_dict : List ((Int × Int) × ℚ)) (m b g s : Int) : Assignment :=
  { mechanic_id := m
    base_id := b
    group := g
    shift := s
    shift_name := if s == 1 then "Day" else "Night"
    cost := costGet cost_dict (m, b) }

/-- The assignment records collected by the nested loops of
`extract_solution`: one record per variable with solution value `> 0.5`. -/
def extractAssignments (mechanics bases periods shifts : List Int)
    (cost_dict : List ((Int × Int) × ℚ)) (σ : Var → ℚ) : List Assignment :=
  mechanics.flatMap (fun m =>
    (slotTriples bases periods shifts).flatMap (fun t =>
      if 1 / 2 < σ (Var.x m t.1 t.2.1 t.2.2) then
        [mkAssignment cost_dict m t.1 t.2.1 t.2.2]
      else []))

/-- Embedding of `RosterOptimizer.extract_solution`: the assignment list and
the accumulated `total_cost` (the sum of the `cost` entries it appends).
The Python method has no validation step and no failure path besides the
model-not-created guard, so the embedding is a total function. -/
def extract_solution (mechanics bases periods shifts : List Int)
    (cost_dict : List ((Int × Int) × ℚ)) (σ : Var → ℚ) :
    List Assignment × ℚ :=
  let assignments := extractAssignments mechanics bases periods shifts cost_dict σ
  (assignments, (assignments.map Assignment.cost).sum)

/-- Python `sorted(xs.unique().tolist())` on integer ids. -/
def sortedUnique (l : List Int) : List Int :=
  List.insertionSort (fun a b => a ≤ b) l.dedup

/-- The display-letter to base-id map of `DataLoader`. -/
def base_column_mapping : List (String × Int) := [("A", 1), ("B", 2), ("C", 3)]

/-- The `cost_dict` built by `DataLoader.load_data`. -/
def buildCostDict (df : CostDF) : List ((Int × Int) × ℚ) :=
  df.rows.foldl (fun d row =>
    base_column_mapping.foldl (fun d p =>
      if p.1 ∈ df.columns then dinsert d (row.id, p.2) (row.cell p.1) else d) d) []

/-- A raw avoidance row; a `none` field models a cell on which the `int` or
`float` coercion raises. -/
structure AvoidRow where
  mechanic_id : Option Int
  avoid_mechanic_id : Option Int
  penalty : Option ℚ

/-- The three coercions of one avoidance row; `none` when any raises. -/
def parseAvoidRow (r : AvoidRow) : Option (Int × Int × ℚ) :=
  match r.mechanic_id, r.avoid_mechanic_id, r.penalty with
  | some m1, some m2, some p => some (m1, m2, p)
  | _, _, _ => none

/-- The row loop inside the `try` block: each parsed row inserts both
orderings; the first raising row aborts the loop, and the surrounding
`except` keeps the dict as already filled. -/
def processAvoidRows : List AvoidRow → List ((Int × Int) × ℚ) → List ((Int × Int) × ℚ)
  | [], d => d
  | r :: rs, d =>
    match parseAvoidRow r with
    | some (m1, m2, p) => processAvoidRows rs (dinsert (dinsert d (m1, m2) p) (m2, m1) p)
    | none => d

/-- The avoidance argument of `load_data`: no file, a file `pd.read_excel`
raises on, or a successfully read row list. -/
inductive AvoidInput where
  | noFile
  | unreadable
  | rows (rs : List AvoidRow)

/-- The `avoidance_dict` produced by `DataLoader.load_data`. -/
def loadAvoidance : AvoidInput → List ((Int × Int) × ℚ)
  | .noFile => []
  | .unreadable => []
  | .rows rs => processAvoidRows rs []

/-- Embedding of `DataLoader.load_data`: sorted duplicate-free id sequences,
the cost dict, and the avoidance dict. -/
def load_data (skills : SkillsDF) (sched : ScheduleDF) (cost : CostDF)
    (av : AvoidInput) : InputData :=
  { mechanic_skills_df := skills
    base_schedule_df := sched
    mechanics := sortedUnique (skills.rows.map (fun r => r.mechanic_id))
    bases := sortedUnique (sched.rows.map (fun r => r.base_id))
    periods := sortedUnique (sched.rows.map (fun r => r.period))
    shifts := sortedUnique (sched.rows.map (fun r => r.shift))
    cost_dict := buildCostDict cost
    avoidance_dict := loadAvoidance av }

/-- The solver names accepted by `Config._validate`. -/
def valid_solvers : List String := ["SCIP", "CBC", "GLOP"]

/-- The log levels accepted by `Config._validate`. -/
def valid_log_levels : List String := ["DEBUG", "INFO", "WARNING", "ERROR", "CRITICAL"]

/-- `Config.DEFAULT_SOLVER`. -/
def DEFAULT_SOLVER : String := "SCIP"

/-- `Config.DEFAULT_LOG_LEVEL`. -/
def DEFAULT_LOG_LEVEL : String := "INFO"

/-- The configuration fields touched by `Config._validate`. -/
structure Config where
  solver : String
  log_level : String
deriving DecidableEq

/-- Embedding of `Config._validate` (named without the underscore): each
invalid field is replaced by its default with a logged warning; nothing is
raised. -/
def Config.validate (c : Config) : Config :=
  let c1 := if c.solver ∈ valid_solvers then c else { c with solver := DEFAULT_SOLVER }
  if c1.log_level ∈ valid_log_levels then c1 else { c1 with log_level := DEFAULT_LOG_LEVEL }

end Roster

namespace Roster

/-! ### Dictionary lemmas -/

theorem dlookup_cons {κ ν : Type} [DecidableEq κ] (e : κ × ν) (d : List (κ × ν)) (k : κ) :
    dlookup (e :: d) k = if e.1 = k then some e.2 else dlookup d k := by
  by_cases h : e.1 = k
  · simp [dlookup, List.find?_cons_of_pos, h]
  · simp only [dlookup, if_neg h]
    rw [List.find?_cons_of_neg]
    simpa using h

theorem dlookup_map_update_ne {κ ν : Type} [DecidableEq κ] (d : List (κ × ν))
    (k : κ) (v : ν) (k' : κ) (h : k' ≠ k) :
    dlookup (d.map (fun e => if e.1 == k then (k, v) else e)) k' = dlookup d k' := by
  simp only [beq_iff_eq]
  induction d with
  | nil => rfl
  | cons e d ih =>
    by_cases he : e.1 = k
    · simp only [List.map_cons, if_pos he, dlookup_cons]
      rw [if_neg (show ¬ (k, v).1 = k' from Ne.symm h),
        if_neg (show ¬ e.1 = k' by rw [he]; exact Ne.symm h)]
      exact ih
    · simp only [List.map_cons, if_neg he, dlookup_cons]
      by_cases he' : e.1 = k'
      · rw [if_pos he', if_pos he']
      · rw [if_neg he', if_neg he']
        exact ih

theorem dlookup_map_update_self {κ ν : Type} [DecidableEq κ] (d : List (κ × ν))
    (k : κ) (v : ν) (h : d.any (fun e => e.1 == k)) :
    dlookup (d.map (fun e => if e.1 == k then (k, v) else e)) k = some v := by
  simp only [beq_iff_eq] at *
  induction d with
  | nil => simp at h
  | cons e d ih =>
    by_cases he : e.1 = k
    · simp [List.map_cons, if_pos he, dlookup_cons]
    · have h' : (d.any fun e => e.1 == k) = true := by
        rcases (by simpa using h : e.1 = k ∨ (d.any fun e => e.1 == k) = true) with h1 | h2
        · exact absurd h1 he
        · exact h2
      simp only [List.map_cons, if_neg he, dlookup_cons]
      exact ih h'

theorem dlookup_eq_none_of_not_any {κ ν : Type} [DecidableEq κ] (d : List (κ × ν))
    (k : κ) (h : ¬ d.any (fun e => e.1 == k)) : dlookup d k = none := by
  induction d with
  | nil => rfl
  | cons e d ih =>
    simp only [List.any_cons, Bool.or_eq_true, beq_iff_eq, not_or] at h
    rw [dlookup_cons, if_neg h.1]
    exact ih (by simpa using h.2)

theorem dlookup_append {κ ν : Type} [DecidableEq κ] (d d' : List (κ × ν)) (k : κ) :
    dlookup (d ++ d') k = ((dlookup d k).map some).getD (dlookup d' k) := by
  induction d with
  | nil => rfl
  | cons e d ih =>
    by_cases he : e.1 = k
    · simp [dlookup_cons, he]
    · simp only [List.cons_append, dlookup_cons, if_neg he]
      exact ih

theorem dlookup_dinsert {κ ν : Type} [DecidableEq κ] (d : List (κ × ν))
    (k : κ) (v : ν) (k' : κ) :
    dlookup (dinsert d k v) k' = if k' = k then some v else dlookup d k' := by
  unfold dinsert
  by_cases h : d.any (fun e => e.1 == k)
  · rw [if_pos h]
    by_cases hk : k' = k
    · subst hk; rw [if_pos rfl]; exact dlookup_map_update_self d k' v h
    · rw [if_neg hk]; exact dlookup_map_update_ne d k v k' hk
  · rw [if_neg h, dlookup_append]
    by_cases hk : k' = k
    · subst hk
      rw [dlookup_eq_none_of_not_any d k' h, if_pos rfl]
      simp [dlookup_cons]
    · rw [if_neg hk]
      cases hd : dlookup d k' with
      | none => simp [dlookup_cons, Ne.symm hk, dlookup]
      | some w => simp

theorem isSome_dlookup_dinsert {κ ν : Type} [DecidableEq κ] (d : List (κ × ν))
    (k : κ) (v : ν) (k' : κ) (h : (dlookup d k').isSome) :
    (dlookup (dinsert d k v) k').isSome := by
  rw [dlookup_dinsert]
  by_cases hk : k' = k <;> simp [hk, h]

theorem mem_keys_of_dlookup {κ ν : Type} [DecidableEq κ] (d : List (κ × ν))
    (k : κ) (p : ν) (h : dlookup d k = some p) : k ∈ d.map Prod.fst := by
  induction d with
  | nil => simp [dlookup] at h
  | cons e d ih =>
    rw [dlookup_cons] at h
    by_cases he : e.1 = k
    · simp [← he]
    · rw [if_neg he] at h
      simp [ih h]

/-! ### Slot and counting lemmas -/

theorem mem_slotTriples (bases periods shifts : List Int) (b g s : Int) :
    (b, g, s) ∈ slotTriples bases periods shifts ↔
      b ∈ bases ∧ g ∈ periods ∧ s ∈ shifts := by
  simp only [slotTriples, List.mem_flatMap, List.mem_map, Prod.mk.injEq]
  constructor
  · rintro ⟨b', hb, g', hg, s', hs, rfl, rfl, rfl⟩
    exact ⟨hb, hg, hs⟩
  · rintro ⟨hb, hg, hs⟩
    exact ⟨b, hb, g, hg, s, hs, rfl, rfl, rfl⟩

theorem slotTriples_eq_product (bases periods shifts : List Int) :
    slotTriples bases periods shifts = bases ×ˢ (periods ×ˢ shifts) := by
  simp only [slotTriples, SProd.sprod, List.product]
  congr 1
  funext b
  induction periods with
  | nil => rfl
  | cons g periods ih => simp [List.flatMap_cons, ih]

theorem nodup_slotTriples (bases periods shifts : List Int)
    (hb : bases.Nodup) (hg : periods.Nodup) (hs : shifts.Nodup) :
    (slotTriples bases periods shifts).Nodup := by
  rw [slotTriples_eq_product]
  exact hb.product (hg.product hs)

theorem length_flatMap_ite {α β : Type} (L : List α) (p : α → Prop)
    [DecidablePred p] (f : α → β) :
    (L.flatMap (fun a => if p a then [f a] else [])).length =
      L.countP (fun a => decide (p a)) := by
  induction L with
  | nil => rfl
  | cons a L ih =>
    by_cases h : p a <;>
      simp [List.countP_cons, h, ih]

theorem countP_le_sum {α : Type} (v : α → ℚ) (L : List α)
    (h : ∀ a ∈ L, v a = 0 ∨ v a = 1) :
    ((L.countP (fun a => decide (1 / 2 < v a)) : ℕ) : ℚ) ≤ (L.map v).sum := by
  induction L with
  | nil => simp
  | cons a L ih =>
    have ha := h a (by simp)
    have hL := ih (fun a ha => h a (by simp [ha]))
    rcases ha with ha | ha <;>
    · simp only [List.countP_cons, List.map_cons, List.sum_cons, ha]
      norm_num
      linarith

theorem filter_flatMap {α β : Type} (L : List α) (f : α → List β) (p : β → Bool) :
    (L.flatMap f).filter p = L.flatMap (fun a => (f a).filter p) := by
  induction L with
  | nil => rfl
  | cons a L ih => simp [List.flatMap_cons, List.filter_append, ih]

theorem length_flatMap_single {α β : Type} [DecidableEq α] (L : List α)
    (G : α → List β) (m : α) (hnd : L.Nodup)
    (h0 : ∀ a ∈ L, a ≠ m → G a = []) :
    (L.flatMap G).length ≤ (G m).length := by
  induction L with
  | nil => simp
  | cons a L ih =>
    have hnd' := hnd.of_cons
    have hna : a ∉ L := (List.nodup_cons.1 hnd).1
    by_cases ha : a = m
    · subst ha
      have : L.flatMap G = [] := by
        apply List.flatMap_eq_nil_iff.2
        intro a' ha'
        exact h0 a' (by simp [ha']) (fun he => hna (he ▸ ha'))
      simp [List.flatMap_cons, this]
    · rw [List.flatMap_cons, h0 a (by simp) ha]
      simpa using ih hnd' (fun a' ha' => h0 a' (by simp [ha']))

/-! ### Avoidance-loading lemmas -/

theorem processAvoidRows_append_fail (pre rest : List AvoidRow) (bad : AvoidRow)
    (hbad : parseAvoidRow bad = none) (d : List ((Int × Int) × ℚ)) :
    processAvoidRows (pre ++ bad :: rest) d = processAvoidRows pre d := by
  induction pre generalizing d with
  | nil => simp [processAvoidRows, hbad]
  | cons r pre ih =>
    cases hr : parseAvoidRow r with
    | none => simp [processAvoidRows, hr]
    | some w =>
      obtain ⟨m1, m2, p⟩ := w
      simp only [List.cons_append, processAvoidRows, hr]
      exact ih _

theorem processAvoidRows_append_parsed (pre l : List AvoidRow)
    (hpre : ∀ r ∈ pre, (parseAvoidRow r).isSome) (d : List ((Int × Int) × ℚ)) :
    processAvoidRows (pre ++ l) d = processAvoidRows l (processAvoidRows pre d) := by
  induction pre generalizing d with
  | nil => rfl
  | cons r pre ih =>
    have hr := hpre r (by simp)
    cases hr' : parseAvoidRow r with
    | none => rw [hr'] at hr; simp at hr
    | some w =>
      obtain ⟨m1, m2, p⟩ := w
      simp only [List.cons_append, processAvoidRows, hr']
      exact ih (fun r hr => hpre r (by simp [hr])) _

theorem processAvoidRows_preserves_isSome (rs : List AvoidRow)
    (d : List ((Int × Int) × ℚ)) (k : Int × Int)
    (h : (dlookup d k).isSome) : (dlookup (processAvoidRows rs d) k).isSome := by
  induction rs generalizing d with
  | nil => exact h
  | cons r rs ih =>
    cases hr : parseAvoidRow r with
    | none => simpa [processAvoidRows, hr] using h
    | some w =>
      obtain ⟨m1, m2, p⟩ := w
      simp only [processAvoidRows, hr]
      exact ih _ (isSome_dlookup_dinsert _ _ _ _ (isSome_dlookup_dinsert _ _ _ _ h))

theorem processAvoidRows_symm (rs : List AvoidRow) (d : List ((Int × Int) × ℚ))
    (h : ∀ a b : Int, dlookup d (a, b) = dlookup d (b, a)) :
    ∀ a b : Int, dlookup (processAvoidRows rs d) (a, b) =
      dlookup (processAvoidRows rs d) (b, a) := by
  induction rs generalizing d with
  | nil => exact h
  | cons r rs ih =>
    cases hr : parseAvoidRow r with
    | none => simpa [processAvoidRows, hr] using h
    | some w =>
      obtain ⟨m1, m2, p⟩ := w
      simp only [processAvoidRows, hr]
      apply ih
      intro a b
      rw [dlookup_dinsert, dlookup_dinsert, dlookup_dinsert, dlookup_dinsert]
      simp only [Prod.mk.injEq]
      have hd := h a b
      by_cases h1 : a = m2 ∧ b = m1
      · obtain ⟨rfl, rfl⟩ := h1
        by_cases h2 : a = b <;> simp [h2, eq_comm]
      · by_cases h2 : a = m1 ∧ b = m2
        · obtain ⟨rfl, rfl⟩ := h2
          by_cases h3 : a = b <;> simp [h3, eq_comm]
        · rw [if_neg h1, if_neg h2, if_neg (fun hc => h2 ⟨hc.2, hc.1⟩),
            if_neg (fun hc => h1 ⟨hc.2, hc.1⟩)]
          exact hd

end Roster

namespace Roster

/-! ### Constraint-family membership and shape lemmas -/

theorem mem_uniquePairs_of_dlookup (avd : List ((Int × Int) × ℚ)) (m1 m2 : Int)
    (p : ℚ) (h : dlookup avd (m1, m2) = some p) (hlt : m1 < m2) :
    (m1, m2) ∈ uniquePairs avd := by
  unfold uniquePairs
  rw [List.mem_dedup, List.mem_filter]
  exact ⟨mem_keys_of_dlookup avd _ p h, by simpa using hlt⟩

theorem mem_avoidanceLinCons (avd : List ((Int × Int) × ℚ))
    (bases periods shifts : List Int) (m1 m2 b g s : Int)
    (hp : (m1, m2) ∈ uniquePairs avd) (hb : b ∈ bases) (hg : g ∈ periods)
    (hs : s ∈ shifts) :
    avoidCon1 m1 m2 b g s ∈ avoidanceLinCons avd bases periods shifts ∧
    avoidCon2 m1 m2 b g s ∈ avoidanceLinCons avd bases periods shifts ∧
    avoidCon3 m1 m2 b g s ∈ avoidanceLinCons avd bases periods shifts := by
  have ht : (b, g, s) ∈ slotTriples bases periods shifts :=
    (mem_slotTriples bases periods shifts b g s).2 ⟨hb, hg, hs⟩
  refine ⟨?_, ?_, ?_⟩ <;>
  · unfold avoidanceLinCons
    rw [List.mem_flatMap]
    exact ⟨(m1, m2), hp, by rw [List.mem_flatMap]; exact ⟨(b, g, s), ht, by simp⟩⟩

theorem mem_singleAssignmentCons (mechanics bases periods shifts : List Int)
    (m : Int) (hm : m ∈ mechanics) :
    singleAssignCon bases periods shifts m ∈
      singleAssignmentCons mechanics bases periods shifts :=
  List.mem_map.2 ⟨m, hm, rfl⟩

theorem mem_skillCoverageCons_intro (skills : SkillsDF) (sched : ScheduleDF)
    (mechanics : List Int) (row : ScheduleRow) (aircraft sk : String)
    (hrow : row ∈ sched.rows) (hair : aircraft ∈ aircraft_types)
    (hsk : sk ∈ skill_types) (hcol : aircraft ∈ sched.columns)
    (hpos : gtZero (row.cell aircraft) = true) :
    skillCoverCon skills mechanics row (aircraft ++ sk) ∈
      skillCoverageCons skills sched mechanics := by
  unfold skillCoverageCons
  rw [List.mem_flatMap]
  refine ⟨row, hrow, ?_⟩
  rw [List.mem_flatMap]
  refine ⟨aircraft, hair, ?_⟩
  rw [if_pos ⟨hcol, hpos⟩]
  exact List.mem_map.2 ⟨sk, hsk, rfl⟩

theorem mem_skillCoverageCons_elim (skills : SkillsDF) (sched : ScheduleDF)
    (mechanics : List Int) (c : LinCon)
    (hc : c ∈ skillCoverageCons skills sched mechanics) :
    ∃ row ∈ sched.rows, ∃ aircraft ∈ aircraft_types, ∃ sk ∈ skill_types,
      aircraft ∈ sched.columns ∧ gtZero (row.cell aircraft) = true ∧
      c = skillCoverCon skills mechanics row (aircraft ++ sk) := by
  unfold skillCoverageCons at hc
  rw [List.mem_flatMap] at hc
  obtain ⟨row, hrow, hc⟩ := hc
  rw [List.mem_flatMap] at hc
  obtain ⟨aircraft, hair, hc⟩ := hc
  by_cases hcond : aircraft ∈ sched.columns ∧ gtZero (row.cell aircraft) = true
  · rw [if_pos hcond] at hc
    obtain ⟨sk, hsk, rfl⟩ := List.mem_map.1 hc
    exact ⟨row, hrow, aircraft, hair, sk, hsk, hcond.1, hcond.2, rfl⟩
  · rw [if_neg hcond] at hc
    simp at hc

theorem mem_noSelfInspectionCons_intro (skills : SkillsDF) (sched : ScheduleDF)
    (mechanics : List Int) (row : ScheduleRow) (col : String) (mi : Int)
    (hrow : row ∈ sched.rows) (hcol : col ∈ inspectorReqColumns sched)
    (hact : gtZero (row.cell col) = true) (hmi : mi ∈ mechanics)
    (hins : inspSkill skills mi col = 1)
    (hne : othersWithSkill skills mechanics mi (regularCounterpart col) ≠ []) :
    noSelfInspectCon skills mechanics row col mi ∈
      noSelfInspectionCons skills sched mechanics := by
  have hcol' : col ∈ sched.columns := (List.mem_filter.1 hcol).1
  unfold noSelfInspectionCons
  rw [List.mem_flatMap]
  refine ⟨row, hrow, ?_⟩
  rw [List.mem_flatMap]
  refine ⟨col, hcol, ?_⟩
  rw [if_pos ⟨hcol', hact⟩, List.mem_flatMap]
  refine ⟨mi, hmi, ?_⟩
  rw [if_pos (by simpa using hins), if_pos hne]
  simp

theorem shape_singleAssignmentCons (mechanics bases periods shifts : List Int)
    (c : LinCon) (hc : c ∈ singleAssignmentCons mechanics bases periods shifts) :
    c.lb = some 0 := by
  obtain ⟨m, _, rfl⟩ := List.mem_map.1 hc
  rfl

theorem shape_skillCoverageCons (skills : SkillsDF) (sched : ScheduleDF)
    (mechanics : List Int) (c : LinCon)
    (hc : c ∈ skillCoverageCons skills sched mechanics) : c.lb = some 1 := by
  obtain ⟨_, _, _, _, _, _, _, _, rfl⟩ :=
    mem_skillCoverageCons_elim skills sched mechanics c hc
  rfl

theorem shape_inspectorCoverageCons (skills : SkillsDF) (sched : ScheduleDF)
    (mechanics : List Int) (c : LinCon)
    (hc : c ∈ inspectorCoverageCons skills sched mechanics) : c.lb = some 1 := by
  unfold inspectorCoverageCons at hc
  rw [List.mem_flatMap] at hc
  obtain ⟨row, _, hc⟩ := hc
  rw [List.mem_flatMap] at hc
  obtain ⟨col, _, hc⟩ := hc
  split at hc
  · obtain rfl := List.mem_singleton.1 hc
    rfl
  · simp at hc

theorem shape_noSelfInspectionCons (skills : SkillsDF) (sched : ScheduleDF)
    (mechanics : List Int) (c : LinCon)
    (hc : c ∈ noSelfInspectionCons skills sched mechanics) :
    2 ≤ c.coeffs.length := by
  unfold noSelfInspectionCons at hc
  rw [List.mem_flatMap] at hc
  obtain ⟨row, _, hc⟩ := hc
  rw [List.mem_flatMap] at hc
  obtain ⟨col, _, hc⟩ := hc
  split at hc
  · rw [List.mem_flatMap] at hc
    obtain ⟨mi, _, hc⟩ := hc
    split at hc
    · split at hc
      · obtain rfl := List.mem_singleton.1 hc
        have hne : othersWithSkill skills mechanics mi (regularCounterpart col) ≠ [] := by
          assumption
        simp only [noSelfInspectCon, List.length_cons, List.length_map]
        have := List.length_pos.2 hne
        omega
      · simp at hc
    · simp at hc
  · simp at hc

theorem shape_avoidanceLinCons (avd : List ((Int × Int) × ℚ))
    (bases periods shifts : List Int) (c : LinCon)
    (hc : c ∈ avoidanceLinCons avd bases periods shifts) :
    2 ≤ c.coeffs.length := by
  unfold avoidanceLinCons at hc
  rw [List.mem_flatMap] at hc
  obtain ⟨p, _, hc⟩ := hc
  rw [List.mem_flatMap] at hc
  obtain ⟨t, _, hc⟩ := hc
  simp only [List.mem_cons, List.mem_singleton] at hc
  rcases hc with rfl | rfl | rfl | h
  · rfl
  · rfl
  · simp [avoidCon3]
  · simp at h

theorem mem_model_f1 (d : InputData) (c : LinCon)
    (h : c ∈ singleAssignmentCons d.mechanics d.bases d.periods d.shifts) :
    c ∈ (create_model d).constraints := by
  simp only [create_model, List.mem_append]
  tauto

theorem mem_model_f2 (d : InputData) (c : LinCon)
    (h : c ∈ skillCoverageCons d.mechanic_skills_df d.base_schedule_df d.mechanics) :
    c ∈ (create_model d).constraints := by
  simp only [create_model, List.mem_append]
  tauto

theorem mem_model_f4 (d : InputData) (c : LinCon)
    (h : c ∈ noSelfInspectionCons d.mechanic_skills_df d.base_schedule_df d.mechanics) :
    c ∈ (create_model d).constraints := by
  simp only [create_model, List.mem_append]
  tauto

theorem mem_model_f5 (d : InputData) (c : LinCon)
    (h : c ∈ avoidanceLinCons d.avoidance_dict d.bases d.periods d.shifts) :
    c ∈ (create_model d).constraints := by
  simp only [create_model, List.mem_append]
  tauto

theorem movementTerms_elim (mechanics bases periods shifts : List Int)
    (cost_dict : List ((Int × Int) × ℚ)) (v : Var) (q : ℚ)
    (h : (v, q) ∈ movementTerms mechanics bases periods shifts cost_dict) :
    ∃ m ∈ mechanics, ∃ b ∈ bases, ∃ g ∈ periods, ∃ s ∈ shifts,
      v = Var.x m b g s ∧ q = costGet cost_dict (m, b) := by
  simp only [movementTerms, List.mem_flatMap, List.mem_map] at h
  obtain ⟨m, hm, b, hb, g, hg, s, hs, heq⟩ := h
  have h1 : Var.x m b g s = v := congrArg Prod.fst heq
  have h2 : costGet cost_dict (m, b) = q := congrArg Prod.snd heq
  exact ⟨m, hm, b, hb, g, hg, s, hs, h1.symm, h2.symm⟩

theorem extract_mem_iff (mechanics bases periods shifts : List Int)
    (cost_dict : List ((Int × Int) × ℚ)) (σ : Var → ℚ) (a : Assignment) :
    a ∈ (extract_solution mechanics bases periods shifts cost_dict σ).1 ↔
      ∃ m ∈ mechanics, ∃ b ∈ bases, ∃ g ∈ periods, ∃ s ∈ shifts,
        1 / 2 < σ (Var.x m b g s) ∧ a = mkAssignment cost_dict m b g s := by
  simp only [extract_solution, extractAssignments, List.mem_flatMap]
  constructor
  · rintro ⟨m, hm, t, ht, ha⟩
    obtain ⟨b, g, s⟩ := t
    obtain ⟨hb, hg, hs⟩ := (mem_slotTriples bases periods shifts b g s).1 ht
    split at ha
    · obtain rfl := List.mem_singleton.1 ha
      exact ⟨m, hm, b, hb, g, hg, s, hs, by assumption, rfl⟩
    · simp at ha
  · rintro ⟨m, hm, b, hb, g, hg, s, hs, hgt, rfl⟩
    refine ⟨m, hm, (b, g, s), (mem_slotTriples bases periods shifts b g s).2 ⟨hb, hg, hs⟩, ?_⟩
    rw [if_pos hgt]
    simp

theorem nodup_avoidanceYVars (avd : List ((Int × Int) × ℚ))
    (bases periods shifts : List Int)
    (hb : bases.Nodup) (hg : periods.Nodup) (hs : shifts.Nodup) :
    (avoidanceYVars avd bases periods shifts).Nodup := by
  unfold avoidanceYVars
  apply List.nodup_flatMap.2
  constructor
  · intro p _
    exact (nodup_slotTriples bases periods shifts hb hg hs).map
      (fun t t' h => by
        obtain ⟨b, g, s⟩ := t
        obtain ⟨b', g', s'⟩ := t'
        cases h
        rfl)
  · refine (List.nodup_dedup _).imp ?_
    intro p p' hne v hv hv'
    obtain ⟨pa, pb⟩ := p
    obtain ⟨pa', pb'⟩ := p'
    simp only [List.mem_map] at hv hv'
    obtain ⟨⟨b1, g1, s1⟩, _, rfl⟩ := hv
    obtain ⟨⟨b2, g2, s2⟩, _, h'⟩ := hv'
    apply hne
    cases h'
    rfl

end Roster

namespace Roster

/-! ### Claim theorems -/

/-- Concrete input for C1: two mechanics, one slot, one avoidance pair with
penalty 50 (both orderings, as the loader stores them), no demand rows. -/
def dBug : InputData :=
  { mechanic_skills_df := ⟨["mechanic_id"], [⟨1, fun _ => 0⟩, ⟨2, fun _ => 0⟩]⟩
    base_schedule_df := ⟨["base_id", "period", "shift"], []⟩
    mechanics := [1, 2]
    bases := [1]
    periods := [1]
    shifts := [1]
    cost_dict := []
    avoidance_dict := [((1, 2), 50), ((2, 1), 50)] }

/-- The 0/1 point with both mechanics assigned and the avoidance variable
kept at zero. -/
def sigmaBug : Var → ℚ := fun v =>
  match v with
  | .y _ _ _ _ _ => 0
  | .x _ _ _ _ => 1

/-- The full constraint list of the C1 model, by computation. -/
theorem dBug_constraints :
    (create_model dBug).constraints =
      [singleAssignCon [1] [1] [1] 1, singleAssignCon [1] [1] [1] 2,
       avoidCon1 1 2 1 1 1, avoidCon2 1 2 1 1 1, avoidCon3 1 2 1 1 1] := rfl

/-- C1: the claim fails on the code.  The three generated linearization
constraints for the avoidance pair `(1, 2)` at slot `(1, 1, 1)` are in the
model, yet the 0/1 point `x[1] = x[2] = 1`, `y = 0` satisfies every
constraint of the model while `y ≠ x[1]·x[2]`: the third constraint is
`-1 ≤ -y + x[m1] + x[m2]` (the source flips the intended signs of
`y ≥ x[m1] + x[m2] - 1`, despite naming the row `avoid_y_ge_sum`), so the
model never forces the product and the penalty can always be avoided. -/
theorem avoidance_linearization_unsound :
    ((avoidCon1 1 2 1 1 1 ∈ (create_model dBug).constraints ∧
      avoidCon2 1 2 1 1 1 ∈ (create_model dBug).constraints ∧
      avoidCon3 1 2 1 1 1 ∈ (create_model dBug).constraints) ∧
     (∀ v, sigmaBug v = 0 ∨ sigmaBug v = 1) ∧
     (∀ c ∈ (create_model dBug).constraints, satisfies sigmaBug c)) ∧
    sigmaBug (Var.y 1 2 1 1 1) ≠
      sigmaBug (Var.x 1 1 1 1) * sigmaBug (Var.x 2 1 1 1) := by
  refine ⟨⟨⟨?_, ?_, ?_⟩, ?_, ?_⟩, ?_⟩
  · rw [dBug_constraints]; simp
  · rw [dBug_constraints]; simp
  · rw [dBug_constraints]; simp
  · intro v
    cases v <;> simp [sigmaBug]
  · intro c hc
    rw [dBug_constraints] at hc
    simp only [List.mem_cons, List.not_mem_nil, or_false] at hc
    rcases hc with rfl | rfl | rfl | rfl | rfl <;>
      norm_num [satisfies, LinCon.lhs, singleAssignCon, avoidCon1, avoidCon2,
        avoidCon3, slotTriples, sigmaBug, Option.mem_def] <;>
      exact fun q hq => absurd hq (by simp)
  · simp [sigmaBug]

/-- C2 (amended): the extractor performs no invariant validation and has no
failure path; it totally returns exactly one record per `x` variable with
solution value above one half, whatever the solution looks like. -/
theorem extractor_returns_all_chosen (mechanics bases periods shifts : List Int)
    (cost_dict : List ((Int × Int) × ℚ)) (σ : Var → ℚ) (a : Assignment) :
    a ∈ (extract_solution mechanics bases periods shifts cost_dict σ).1 ↔
      ∃ m ∈ mechanics, ∃ b ∈ bases, ∃ g ∈ periods, ∃ s ∈ shifts,
        1 / 2 < σ (Var.x m b g s) ∧ a = mkAssignment cost_dict m b g s :=
  extract_mem_iff mechanics bases periods shifts cost_dict σ a

/-- C2 witness: the characterization instantiated at a concrete solved
model. -/
theorem extractor_returns_all_chosen_witness :
    mkAssignment [] 1 1 1 1 ∈ (extract_solution [1] [1] [1] [1] [] (fun _ => 1)).1 ↔
      ∃ m ∈ [(1 : Int)], ∃ b ∈ [(1 : Int)], ∃ g ∈ [(1 : Int)], ∃ s ∈ [(1 : Int)],
        1 / 2 < (fun _ => (1 : ℚ)) (Var.x m b g s) ∧
        mkAssignment [] 1 1 1 1 = mkAssignment [] m b g s :=
  extractor_returns_all_chosen [1] [1] [1] [1] [] (fun _ => 1) (mkAssignment [] 1 1 1 1)

/-- C2 counterexample: on a solution value that assigns mechanic 1 to two
different periods (breaking the single-assignment invariant), the extractor
does not fail with any `kInvariantViolation`: it returns both records. -/
theorem extractor_no_invariant_check_cex :
    ((extract_solution [1] [1] [1, 2] [1] [] (fun _ => 1)).1.filter
      (fun a => a.mechanic_id == 1)).length = 2 := by
  norm_num [extract_solution, extractAssignments, slotTriples, mkAssignment]

/-- C3 (amended): a parse failure in the avoidance rows stops processing at
the first failing row but keeps the pairs inserted by earlier rows; only an
unreadable (or absent) file yields the empty map.  All other loaded data is
unaffected by the avoidance input. -/
theorem avoidance_failure_partial_recovery (skills : SkillsDF) (sched : ScheduleDF)
    (cost : CostDF) (pre rest : List AvoidRow) (bad : AvoidRow)
    (hbad : parseAvoidRow bad = none) (av av' : AvoidInput) :
    loadAvoidance (.rows (pre ++ bad :: rest)) = loadAvoidance (.rows pre) ∧
    loadAvoidance .unreadable = [] ∧
    loadAvoidance .noFile = [] ∧
    (load_data skills sched cost av).mechanics = (load_data skills sched cost av').mechanics ∧
    (load_data skills sched cost av).bases = (load_data skills sched cost av').bases ∧
    (load_data skills sched cost av).periods = (load_data skills sched cost av').periods ∧
    (load_data skills sched cost av).shifts = (load_data skills sched cost av').shifts ∧
    (load_data skills sched cost av).cost_dict = (load_data skills sched cost av').cost_dict ∧
    (load_data skills sched cost av).mechanic_skills_df =
      (load_data skills sched cost av').mechanic_skills_df ∧
    (load_data skills sched cost av).base_schedule_df =
      (load_data skills sched cost av').base_schedule_df :=
  ⟨processAvoidRows_append_fail pre rest bad hbad [], rfl, rfl, rfl, rfl, rfl, rfl,
    rfl, rfl, rfl⟩

/-- C3 witness: the amended behavior at a single failing row. -/
theorem avoidance_failure_partial_recovery_witness :
    loadAvoidance (.rows ([] ++ (⟨none, none, none⟩ : AvoidRow) :: [])) =
      loadAvoidance (.rows []) :=
  (avoidance_failure_partial_recovery ⟨[], []⟩ ⟨[], []⟩ ⟨[], []⟩ [] []
    ⟨none, none, none⟩ rfl .noFile .noFile).1

/-- C3 counterexample: an avoidance input whose second row fails to parse
leaves the first row's pair in the map, so the resulting avoidance map is
not the empty map. -/
theorem avoidance_failure_nonempty_cex :
    loadAvoidance (.rows [⟨some 1, some 2, some 50⟩, ⟨some 3, none, none⟩]) =
      [((1, 2), 50), ((2, 1), 50)] ∧
    loadAvoidance (.rows [⟨some 1, some 2, some 50⟩, ⟨some 3, none, none⟩]) ≠ [] := by
  have he : loadAvoidance (.rows [⟨some 1, some 2, some 50⟩, ⟨some 3, none, none⟩]) =
      [((1, 2), 50), ((2, 1), 50)] := rfl
  refine ⟨he, ?_⟩
  rw [he]
  simp

/-- C4: for a schedule row whose aircraft column is present and positive,
each of the three discipline constraints is in the model with lower bound
exactly 1 (never scaled by the demand count, which the constraint does not
even mention: rows agreeing on the slot produce the same constraint), and
every skill-coverage constraint arises from such a positive entry, so a
zero or missing count generates no constraint for that aircraft. -/
theorem skill_coverage_rhs_one (d : InputData) (row : ScheduleRow)
    (aircraft sk : String) (hrow : row ∈ d.base_schedule_df.rows)
    (hair : aircraft ∈ aircraft_types) (hsk : sk ∈ skill_types) :
    (aircraft ∈ d.base_schedule_df.columns → gtZero (row.cell aircraft) = true →
      skillCoverCon d.mechanic_skills_df d.mechanics row (aircraft ++ sk) ∈
          (create_model d).constraints ∧
      (skillCoverCon d.mechanic_skills_df d.mechanics row (aircraft ++ sk)).lb = some 1 ∧
      (skillCoverCon d.mechanic_skills_df d.mechanics row (aircraft ++ sk)).ub = none ∧
      (skillCoverCon d.mechanic_skills_df d.mechanics row (aircraft ++ sk)).coeffs =
        (d.mechanics.filter
            (fun m => regSkill d.mechanic_skills_df m (aircraft ++ sk) == 1)).map
          (fun m => (Var.x m row.base_id row.period row.shift, 1))) ∧
    (∀ row' : ScheduleRow, row'.base_id = row.base_id → row'.period = row.period →
      row'.shift = row.shift →
      skillCoverCon d.mechanic_skills_df d.mechanics row' (aircraft ++ sk) =
        skillCoverCon d.mechanic_skills_df d.mechanics row (aircraft ++ sk)) ∧
    (∀ c ∈ skillCoverageCons d.mechanic_skills_df d.base_schedule_df d.mechanics,
      ∃ row' ∈ d.base_schedule_df.rows, ∃ a' ∈ aircraft_types, ∃ sk' ∈ skill_types,
        a' ∈ d.base_schedule_df.columns ∧ gtZero (row'.cell a') = true ∧
        c = skillCoverCon d.mechanic_skills_df d.mechanics row' (a' ++ sk')) := by
  refine ⟨fun hcol hpos => ⟨?_, rfl, rfl, rfl⟩, ?_, ?_⟩
  · exact mem_model_f2 d _
      (mem_skillCoverageCons_intro d.mechanic_skills_df d.base_schedule_df
        d.mechanics row aircraft sk hrow hair hsk hcol hpos)
  · intro row' h1 h2 h3
    simp only [skillCoverCon, h1, h2, h3]
  · exact mem_skillCoverageCons_elim d.mechanic_skills_df d.base_schedule_df d.mechanics

/-- Concrete schedule row for the C4 witness: one aw139 at slot (1,1,1). -/
def wRow4 : ScheduleRow := ⟨1, 1, 1, fun c => if c = "aw139" then some 1 else none⟩

/-- Concrete schedule frame for the C4 witness. -/
def wSched4 : ScheduleDF := ⟨["base_id", "period", "shift", "aw139"], [wRow4]⟩

/-- Concrete skills frame for the C4 witness. -/
def wSkills4 : SkillsDF :=
  ⟨["mechanic_id", "aw139_af", "aw139_r", "aw139_av"], [⟨1, fun _ => 1⟩]⟩

/-- Concrete input data for the C4 witness. -/
def dW4 : InputData := ⟨wSkills4, wSched4, [1], [1], [1], [1], [], []⟩

/-- C4 witness: the airframe coverage constraint of the concrete slot is in
the model with lower bound 1. -/
theorem skill_coverage_rhs_one_witness :
    skillCoverCon dW4.mechanic_skills_df dW4.mechanics wRow4 ("aw139" ++ "_af") ∈
      (create_model dW4).constraints ∧
    (skillCoverCon dW4.mechanic_skills_df dW4.mechanics wRow4 ("aw139" ++ "_af")).lb =
      some 1 :=
  have h := skill_coverage_rhs_one dW4 wRow4 "aw139" "_af"
    (List.mem_singleton.2 rfl) (by decide) (by decide)
  ⟨(h.1 (by decide) (by decide)).1, (h.1 (by decide) (by decide)).2.1⟩

/-- C5: for an active inspector requirement and a mechanic holding the
inspector skill, the no-self-inspection constraint is in the model exactly
when some other mechanic in the pool holds the regular counterpart skill;
with no such mechanic the constraint is absent and the inspector may stand
alone. -/
theorem no_self_inspection_iff_other_mechanic (d : InputData) (row : ScheduleRow)
    (col : String) (mi : Int)
    (hrow : row ∈ d.base_schedule_df.rows)
    (hcol : col ∈ inspectorReqColumns d.base_schedule_df)
    (hact : gtZero (row.cell col) = true)
    (hmi : mi ∈ d.mechanics)
    (hins : inspSkill d.mechanic_skills_df mi col = 1) :
    noSelfInspectCon d.mechanic_skills_df d.mechanics row col mi ∈
        (create_model d).constraints ↔
      othersWithSkill d.mechanic_skills_df d.mechanics mi (regularCounterpart col) ≠ [] := by
  constructor
  · intro hmem hempty
    have hlb : (noSelfInspectCon d.mechanic_skills_df d.mechanics row col mi).lb = none := rfl
    have hlen : (noSelfInspectCon d.mechanic_skills_df d.mechanics row col mi).coeffs.length
        = 1 := by
      simp [noSelfInspectCon, hempty]
    simp only [create_model, List.mem_append] at hmem
    rcases hmem with ((((h | h) | h) | h) | h)
    · rw [shape_singleAssignmentCons _ _ _ _ _ h] at hlb; exact Option.noConfusion hlb
    · rw [shape_skillCoverageCons _ _ _ _ h] at hlb; exact Option.noConfusion hlb
    · rw [shape_inspectorCoverageCons _ _ _ _ h] at hlb; exact Option.noConfusion hlb
    · have := shape_noSelfInspectionCons _ _ _ _ h; omega
    · have := shape_avoidanceLinCons _ _ _ _ _ h; omega
  · intro hne
    exact mem_model_f4 d _
      (mem_noSelfInspectionCons_intro d.mechanic_skills_df d.base_schedule_df
        d.mechanics row col mi hrow hcol hact hmi hins hne)

/-- Concrete schedule row for the C5 witness: inspector requirement active. -/
def wRow5 : ScheduleRow :=
  ⟨1, 1, 1, fun c => if c = "aw139_af_inspec" then some 1 else none⟩

/-- Concrete schedule frame for the C5 witness. -/
def wSched5 : ScheduleDF := ⟨["base_id", "period", "shift", "aw139_af_inspec"], [wRow5]⟩

/-- Concrete skills frame for the C5 witness: mechanic 1 is an inspector,
mechanic 2 holds the regular counterpart. -/
def wSkills5 : SkillsDF :=
  ⟨["mechanic_id", "aw139_af", "aw139_af_inspec"],
    [⟨1, fun _ => 1⟩, ⟨2, fun c => if c = "aw139_af" then 1 else 0⟩]⟩

/-- Concrete input data for the C5 witness. -/
def dW5 : InputData := ⟨wSkills5, wSched5, [1, 2], [1], [1], [1], [], []⟩

/-- C5 witness: with mechanic 2 holding the regular skill, the constraint
for inspector 1 is generated. -/
theorem no_self_inspection_iff_other_mechanic_witness :
    noSelfInspectCon dW5.mechanic_skills_df dW5.mechanics wRow5 "aw139_af_inspec" 1 ∈
      (create_model dW5).constraints :=
  (no_self_inspection_iff_other_mechanic dW5 wRow5 "aw139_af_inspec" 1
    (List.mem_singleton.2 rfl) (by decide) (by decide) (by decide) (by decide)).2
    (by decide)

end Roster

namespace Roster

/-- C6: the model contains the single-assignment constraint of every
mechanic, whose upper bound is 1, and on any 0/1 point satisfying the
model's constraints the extractor produces at most one assignment record
for the mechanic. -/
theorem single_assignment_at_most_one (d : InputData) (m : Int)
    (hm : m ∈ d.mechanics) (hnd : d.mechanics.Nodup) (σ : Var → ℚ)
    (h01 : ∀ v, σ v = 0 ∨ σ v = 1)
    (hsat : ∀ c ∈ (create_model d).constraints, satisfies σ c) :
    singleAssignCon d.bases d.periods d.shifts m ∈ (create_model d).constraints ∧
    (singleAssignCon d.bases d.periods d.shifts m).ub = some 1 ∧
    ((extract_solution d.mechanics d.bases d.periods d.shifts d.cost_dict σ).1.filter
      (fun a => a.mechanic_id == m)).length ≤ 1 := by
  have hmem : singleAssignCon d.bases d.periods d.shifts m ∈ (create_model d).constraints :=
    mem_model_f1 d _ (mem_singleAssignmentCons d.mechanics d.bases d.periods d.shifts m hm)
  refine ⟨hmem, rfl, ?_⟩
  have hub : (singleAssignCon d.bases d.periods d.shifts m).lhs σ ≤ 1 :=
    (hsat _ hmem).2 1 rfl
  have hlhs : (singleAssignCon d.bases d.periods d.shifts m).lhs σ =
      ((slotTriples d.bases d.periods d.shifts).map
        (fun t => σ (Var.x m t.1 t.2.1 t.2.2))).sum := by
    simp [LinCon.lhs, singleAssignCon, List.map_map, Function.comp_def]
  set F : Int → List Assignment := fun m' =>
    (slotTriples d.bases d.periods d.shifts).flatMap (fun t =>
      if 1 / 2 < σ (Var.x m' t.1 t.2.1 t.2.2) then
        [mkAssignment d.cost_dict m' t.1 t.2.1 t.2.2]
      else []) with hF
  have hex : (extract_solution d.mechanics d.bases d.periods d.shifts d.cost_dict σ).1 =
      d.mechanics.flatMap F := rfl
  rw [hex, filter_flatMap]
  have hstep : (d.mechanics.flatMap
      (fun m' => (F m').filter (fun a => a.mechanic_id == m))).length ≤
      ((F m).filter (fun a => a.mechanic_id == m)).length := by
    apply length_flatMap_single d.mechanics _ m hnd
    intro m' hm' hne
    apply List.filter_eq_nil_iff.2
    intro a ha
    have : a.mechanic_id = m' := by
      simp only [hF, List.mem_flatMap] at ha
      obtain ⟨t, _, ha⟩ := ha
      split at ha
      · obtain rfl := List.mem_singleton.1 ha
        rfl
      · simp at ha
    simp [this, hne]
  refine le_trans hstep ?_
  have hq : ((((F m).filter (fun a => a.mechanic_id == m)).length : ℚ)) ≤ 1 := by
    calc (((F m).filter (fun a => a.mechanic_id == m)).length : ℚ)
        ≤ ((F m).length : ℚ) := by
          exact_mod_cast Nat.cast_le.2 (List.length_filter_le _ _)
      _ = ((slotTriples d.bases d.periods d.shifts).countP
            (fun t => decide (1 / 2 < σ (Var.x m t.1 t.2.1 t.2.2))) : ℚ) := by
          rw [hF]
          norm_cast
          exact length_flatMap_ite _ _ _
      _ ≤ ((slotTriples d.bases d.periods d.shifts).map
            (fun t => σ (Var.x m t.1 t.2.1 t.2.2))).sum :=
          countP_le_sum _ _ (fun t _ => h01 _)
      _ ≤ 1 := hlhs ▸ hub
  exact_mod_cast hq

/-- Concrete input data for the C6 witness: one mechanic, two periods, no
demand rows, so the only model constraint is single assignment. -/
def dW6 : InputData :=
  ⟨⟨["mechanic_id"], [⟨1, fun _ => 0⟩]⟩, ⟨["base_id", "period", "shift"], []⟩,
    [1], [1], [1, 2], [1], [], []⟩

/-- The feasible 0/1 point for the C6 witness: mechanic 1 in period 1 only. -/
def sigma6 : Var → ℚ := fun v => if v = Var.x 1 1 1 1 then 1 else 0

/-- C6 witness: the extraction of the concrete point yields at most one
record for mechanic 1. -/
theorem single_assignment_at_most_one_witness :
    ((extract_solution dW6.mechanics dW6.bases dW6.periods dW6.shifts
        dW6.cost_dict sigma6).1.filter (fun a => a.mechanic_id == 1)).length ≤ 1 :=
  (single_assignment_at_most_one dW6 1 (by decide) (by decide) sigma6
    (by
      intro v
      by_cases h : v = Var.x 1 1 1 1 <;> simp [sigma6, h])
    (by
      intro c hc
      have hcs : (create_model dW6).constraints = [singleAssignCon [1] [1, 2] [1] 1] := rfl
      rw [hcs] at hc
      obtain rfl := List.mem_singleton.1 hc
      norm_num [satisfies, LinCon.lhs, singleAssignCon, slotTriples, sigma6,
        Option.mem_def])).2.2

/-- C7: the objective coefficient of `x[m, b, g, s]` is in the objective and
equals `cost_dict.get((m, b), 0)`; any movement term placed on that variable
carries exactly that value, independent of `g` and `s`, and a pair absent
from the cost table contributes 0. -/
theorem objective_coeff_depends_only_on_base (d : InputData) (m b g s : Int)
    (hm : m ∈ d.mechanics) (hb : b ∈ d.bases) (hg : g ∈ d.periods)
    (hs : s ∈ d.shifts) :
    (Var.x m b g s, costGet d.cost_dict (m, b)) ∈ (create_model d).objectiveTerms ∧
    (∀ q : ℚ, (Var.x m b g s, q) ∈ (create_model d).objectiveTerms →
      q = costGet d.cost_dict (m, b)) ∧
    (dlookup d.cost_dict (m, b) = none → costGet d.cost_dict (m, b) = 0) := by
  refine ⟨?_, ?_, ?_⟩
  · simp only [create_model, List.mem_append]
    left
    simp only [movementTerms, List.mem_flatMap, List.mem_map]
    exact ⟨m, hm, b, hb, g, hg, s, hs, rfl⟩
  · intro q hq
    simp only [create_model, List.mem_append] at hq
    rcases hq with hq | hq
    · obtain ⟨m', _, b', _, g', _, s', _, hv, hc⟩ :=
        movementTerms_elim d.mechanics d.bases d.periods d.shifts d.cost_dict _ q hq
      obtain ⟨rfl, rfl, rfl, rfl⟩ : m' = m ∧ b' = b ∧ g' = g ∧ s' = s := by
        cases hv
        exact ⟨rfl, rfl, rfl, rfl⟩
      exact hc
    · exfalso
      simp only [avoidanceTerms, List.mem_flatMap, List.mem_map] at hq
      obtain ⟨p, _, t, _, heq⟩ := hq
      exact Var.noConfusion (congrArg Prod.fst heq)
  · intro hnone
    simp [costGet, hnone]

/-- Concrete input data for the C7 witness. -/
def dW7 : InputData :=
  ⟨⟨["mechanic_id"], [⟨1, fun _ => 0⟩]⟩, ⟨["base_id", "period", "shift"], []⟩,
    [1], [1], [1], [1], [((1, 1), 10)], []⟩

/-- C7 witness: the movement term of the concrete model. -/
theorem objective_coeff_depends_only_on_base_witness :
    (Var.x 1 1 1 1, costGet dW7.cost_dict (1, 1)) ∈ (create_model dW7).objectiveTerms :=
  (objective_coeff_depends_only_on_base dW7 1 1 1 1 (by decide) (by decide)
    (by decide) (by decide)).1

/-- C8: after the loader has processed a parsed avoidance row `(m1, m2, p)`
(all rows before it having parsed), both orderings are keys of the final
map, the final map is symmetric, and the model holds exactly one `y`
variable for the unordered pair at each slot. -/
theorem avoidance_symmetric_and_unique_yvar (pre rest : List AvoidRow)
    (r : AvoidRow) (m1 m2 : Int) (p : ℚ)
    (hpre : ∀ r' ∈ pre, (parseAvoidRow r').isSome)
    (hr : parseAvoidRow r = some (m1, m2, p))
    (hne : m1 ≠ m2)
    (bases periods shifts : List Int) (b g s : Int)
    (hb : b ∈ bases) (hg : g ∈ periods) (hs : s ∈ shifts)
    (hbN : bases.Nodup) (hgN : periods.Nodup) (hsN : shifts.Nodup) :
    (dlookup (loadAvoidance (.rows (pre ++ r :: rest))) (m1, m2)).isSome ∧
    (dlookup (loadAvoidance (.rows (pre ++ r :: rest))) (m2, m1)).isSome ∧
    (∀ a c : Int, dlookup (loadAvoidance (.rows (pre ++ r :: rest))) (a, c) =
      dlookup (loadAvoidance (.rows (pre ++ r :: rest))) (c, a)) ∧
    (avoidanceYVars (loadAvoidance (.rows (pre ++ r :: rest))) bases periods shifts).count
      (Var.y (min m1 m2) (max m1 m2) b g s) = 1 := by
  have hsplit : loadAvoidance (.rows (pre ++ r :: rest)) =
      processAvoidRows (r :: rest) (processAvoidRows pre []) :=
    processAvoidRows_append_parsed pre (r :: rest) hpre []
  have hsome : ∀ k : Int × Int, k = (m1, m2) ∨ k = (m2, m1) →
      (dlookup (loadAvoidance (.rows (pre ++ r :: rest))) k).isSome := by
    intro k hk
    rw [hsplit]
    simp only [processAvoidRows, hr]
    apply processAvoidRows_preserves_isSome
    rcases hk with rfl | rfl
    · apply isSome_dlookup_dinsert
      rw [dlookup_dinsert]
      simp
    · rw [dlookup_dinsert]
      simp
  have hsym : ∀ a c : Int, dlookup (loadAvoidance (.rows (pre ++ r :: rest))) (a, c) =
      dlookup (loadAvoidance (.rows (pre ++ r :: rest))) (c, a) := by
    apply processAvoidRows_symm
    intro a c
    rfl
  refine ⟨hsome _ (Or.inl rfl), hsome _ (Or.inr rfl), hsym, ?_⟩
  have hmm : (min m1 m2, max m1 m2) = (m1, m2) ∨ (min m1 m2, max m1 m2) = (m2, m1) := by
    rcases le_total m1 m2 with h | h
    · left; simp [min_eq_left h, max_eq_right h]
    · right; simp [min_eq_right h, max_eq_left h]
  obtain ⟨p', hp'⟩ := Option.isSome_iff_exists.1 (hsome _ hmm)
  have hpair : (min m1 m2, max m1 m2) ∈
      uniquePairs (loadAvoidance (.rows (pre ++ r :: rest))) :=
    mem_uniquePairs_of_dlookup _ _ _ p' hp' (min_lt_max.2 hne)
  have hmem : Var.y (min m1 m2) (max m1 m2) b g s ∈
      avoidanceYVars (loadAvoidance (.rows (pre ++ r :: rest))) bases periods shifts := by
    unfold avoidanceYVars
    rw [List.mem_flatMap]
    refine ⟨(min m1 m2, max m1 m2), hpair, ?_⟩
    rw [List.mem_map]
    exact ⟨(b, g, s), (mem_slotTriples bases periods shifts b g s).2 ⟨hb, hg, hs⟩, rfl⟩
  exact List.count_eq_one_of_mem
    (nodup_avoidanceYVars _ bases periods shifts hbN hgN hsN) hmem

/-- C8 witness: the single-row input `(1, 2, 50)` with one slot. -/
theorem avoidance_symmetric_and_unique_yvar_witness :
    (dlookup (loadAvoidance (.rows ([] ++ (⟨some 1, some 2, some 50⟩ : AvoidRow) :: [])))
      (1, 2)).isSome ∧
    (avoidanceYVars (loadAvoidance
        (.rows ([] ++ (⟨some 1, some 2, some 50⟩ : AvoidRow) :: []))) [1] [1] [1]).count
      (Var.y (min 1 2) (max 1 2) 1 1 1) = 1 :=
  have h := avoidance_symmetric_and_unique_yvar [] [] ⟨some 1, some 2, some 50⟩ 1 2 50
    (by simp) rfl (by decide) [1] [1] [1] 1 1 1 (by decide) (by decide) (by decide)
    (by decide) (by decide) (by decide)
  ⟨h.1, h.2.2.2⟩

/-- C9: `Config._validate` keeps a valid solver and log level unchanged and
silently replaces any other value by the defaults `SCIP` and `INFO`; it is a
total function and raises nothing. -/
theorem config_validate_defaults (c : Config) :
    ((Config.validate c).solver =
      if c.solver ∈ valid_solvers then c.solver else DEFAULT_SOLVER) ∧
    ((Config.validate c).log_level =
      if c.log_level ∈ valid_log_levels then c.log_level else DEFAULT_LOG_LEVEL) := by
  unfold Config.validate
  by_cases h1 : c.solver ∈ valid_solvers <;>
    by_cases h2 : c.log_level ∈ valid_log_levels <;>
      simp [h1, h2]

/-- C9 witness: an invalid solver and log level both fall back to the
defaults. -/
theorem config_validate_defaults_witness :
    ((Config.validate ⟨"GUROBI", "TRACE"⟩).solver =
      if "GUROBI" ∈ valid_solvers then "GUROBI" else DEFAULT_SOLVER) ∧
    ((Config.validate ⟨"GUROBI", "TRACE"⟩).log_level =
      if "TRACE" ∈ valid_log_levels then "TRACE" else DEFAULT_LOG_LEVEL) :=
  config_validate_defaults ⟨"GUROBI", "TRACE"⟩

/-- C10: every extracted assignment is named `Day` exactly when its shift id
is 1 and is named `Night` for every other shift id, so the name always lies
in the two-element set. -/
theorem shift_name_day_iff_shift_one (mechanics bases periods shifts : List Int)
    (cost_dict : List ((Int × Int) × ℚ)) (σ : Var → ℚ) (a : Assignment)
    (ha : a ∈ (extract_solution mechanics bases periods shifts cost_dict σ).1) :
    (a.shift_name = "Day" ↔ a.shift = 1) ∧
    (a.shift_name = "Day" ∨ a.shift_name = "Night") := by
  obtain ⟨m, _, b, _, g, _, s, _, _, rfl⟩ :=
    (extract_mem_iff mechanics bases periods shifts cost_dict σ a).1 ha
  by_cases hs : s = 1
  · subst hs
    simp [mkAssignment]
  · simp only [mkAssignment]
    rw [if_neg (by simpa using hs)]
    constructor
    · constructor
      · intro h
        exact absurd h (by decide)
      · intro h
        exact absurd h hs
    · right; rfl

/-- C10 witness: a shift id of 3 (outside `{1, 2}`) is still labeled
`Night`. -/
theorem shift_name_day_iff_shift_one_witness :
    ((mkAssignment [] 1 1 1 3).shift_name = "Day" ↔ (mkAssignment [] 1 1 1 3).shift = 1) ∧
    ((mkAssignment [] 1 1 1 3).shift_name = "Day" ∨
      (mkAssignment [] 1 1 1 3).shift_name = "Night") :=
  shift_name_day_iff_shift_one [1] [1] [1] [3] [] (fun _ => 1) (mkAssignment [] 1 1 1 3)
    (by norm_num [extract_solution, extractAssignments, slotTriples])

end Roster
